import Mathlib

/-
Verification of the LxWEngD daemon core against its specification.

The definitions below are a shallow embedding of the Rust sources:
  src/daemon/src/commands.rs         (command line parser, nom based)
  src/daemon/src/utils/playlist.rs   (playlist file parsing)
  src/daemon/src/runner/exec.rs      (Execution: begin, remaining, cleanup)
  src/daemon/src/runner/imp.rs       (Runner::new, Runner::run, Runner::exec_async)
  src/daemon/src/runner/mod.rs       (RunnerHandle, next/prev/goto, RunnerError)
  src/daemon/src/daemon.rs           (registry, load dispatch, try_cleanup)

Modelling conventions:
  - std::time::Duration and Instant differences are modelled as Nat
    (the unit is irrelevant; std Duration subtraction is partial and is
    modelled with an explicit Option).
  - usize arithmetic uses release-mode (wrapping) semantics, made explicit
    with a modulus of 2 ^ 64.
  - A Rust panic (unwrap of a failed spawn, an unreachable branch, or an
    overflowing Duration subtraction) is modelled as Option.none.
  - The three way completion race of Execution::result() is left abstract:
    the outcome of each Execution is an oracle input (a list of ExecResult
    values consumed by the loop), since the claims are conditional on the
    result an Execution reports.  The loop model assumes spawns succeed;
    the spawn-failure panic is modelled separately at Execution.begin.
-/

deriving instance DecidableEq for Except

namespace LxWEngD

/-- Duration of a command: named WallpaperDuration in commands.rs and
CmdDuration in the runner modules; both are Finite(d) or Infinite. -/
inductive CmdDuration where
  | finite (d : Nat)
  | infinite
deriving DecidableEq

/-- Property sets (HashMap String String in the source) are modelled as
association lists with unique keys, later inserts overwriting earlier ones. -/
abbrev Props := List (String × String)

/-- Command, from commands.rs: Wallpaper(id, duration, properties),
Sleep(duration), End, Default(properties). -/
inductive Command where
  | wallpaper (name : String) (duration : CmdDuration) (properties : Props)
  | sleep (duration : CmdDuration)
  | end_
  | default (properties : Props)
deriving DecidableEq

/-- Action, from runner/actions.rs. -/
inductive Action where
  | next
  | prev
  | goto (i : Nat)
  | exec (cmd : Command)
  | pause (clear : Bool)
  | exit
deriving DecidableEq

/-- ExecResult, from runner/exec.rs. -/
inductive ExecResult where
  | elapsed
  | error
  | interrupted (a : Action)
deriving DecidableEq

/-- ParseError, from commands.rs. -/
inductive ParseError where
  | commandNotFound
  | notEnoughArguments
  | invalidArgument
deriving DecidableEq

/-- RunnerError, from runner/mod.rs. -/
inductive RunnerError where
  | initFailed
  | cannotSpawn
  | engineDied
  | cleanupFail
deriving DecidableEq

/-- Wallpaper and Sleep commands reach Execution::begin; Default and End are
handled by the Runner loop directly and are unreachable inside an Execution. -/
def Command.isLongRunning : Command → Bool
  | .wallpaper _ _ _ => true
  | .sleep _ => true
  | _ => false

namespace Commands

/- Embedding of the nom parser of commands.rs.  Parsers work on List Char;
an error carries the input position it was raised at and the nom ErrorKind,
exactly the data the public parse function inspects. -/

inductive ErrorKind where
  | tag
  | char
  | alphaNumeric
  | takeTill1
  | mapRes
  | separatedList
deriving DecidableEq

structure NomError where
  input : List Char
  kind : ErrorKind
deriving DecidableEq

abbrev NomRes (α : Type) := Except NomError (List Char × α)

/-- nom tag: matches a literal prefix. -/
def tagP (t : String) (i : List Char) : NomRes (List Char) :=
  if t.toList.isPrefixOf i then Except.ok (i.drop t.toList.length, t.toList)
  else Except.error ⟨i, ErrorKind.tag⟩

/-- nom space0: consumes zero or more spaces and tabs, never fails. -/
def space0 (i : List Char) : List Char :=
  i.dropWhile fun c => c == ' ' || c == '\t'

/-- nom take_till1: longest nonempty prefix of characters not satisfying p. -/
def takeTill1P (p : Char → Bool) (i : List Char) : NomRes (List Char) :=
  let tok := i.takeWhile fun c => !p c
  if tok.isEmpty then Except.error ⟨i, ErrorKind.takeTill1⟩
  else Except.ok (i.drop tok.length, tok)

/-- nom char. -/
def charP (c : Char) : List Char → NomRes Char
  | [] => Except.error ⟨[], ErrorKind.char⟩
  | x :: r =>
    if x == c then Except.ok (r, c) else Except.error ⟨x :: r, ErrorKind.char⟩

/-- nom complete::alphanumeric1 (ASCII letters and digits). -/
def alphanumeric1P (i : List Char) : NomRes (List Char) :=
  let tok := i.takeWhile Char.isAlphanum
  if tok.isEmpty then Except.error ⟨i, ErrorKind.alphaNumeric⟩
  else Except.ok (i.drop tok.length, tok)

/-- parse_comment: pair(char '#', rest); rest consumes the whole input. -/
def parse_comment (i : List Char) : NomRes Unit :=
  match charP '#' i with
  | Except.error e => Except.error e
  | Except.ok (_, _) => Except.ok ([], ())

/-- opt(parse_comment): eats the whole remaining input when it starts with
a hash, otherwise leaves the input unchanged.  Never fails. -/
def optComment (i : List Char) : List Char :=
  match parse_comment i with
  | Except.ok (i1, _) => i1
  | Except.error _ => i

/-- separated_pair(alphanumeric1, char '=', alphanumeric1). -/
def parse_prop_pair (i : List Char) : NomRes (List Char × List Char) :=
  match alphanumeric1P i with
  | Except.error e => Except.error e
  | Except.ok (i1, k) =>
    match charP '=' i1 with
    | Except.error e => Except.error e
    | Except.ok (i2, _) =>
      match alphanumeric1P i2 with
      | Except.error e => Except.error e
      | Except.ok (i3, v) => Except.ok (i3, (k, v))

/-- Loop of nom separated_list0(space0, separated_pair ..): after the first
element, repeatedly consume the separator and another element, stopping at
the first element failure; a round that consumes nothing is the nom infinite
loop guard.  Fuel bounds the recursion; one unit per character of input
suffices because every successful round consumes at least one character. -/
def sepListLoop : Nat → List Char → List (List Char × List Char) →
    NomRes (List (List Char × List Char))
  | 0, i, _ => Except.error ⟨i, ErrorKind.separatedList⟩
  | fuel + 1, i, acc =>
    let len := i.length
    let i1 := space0 i
    match parse_prop_pair i1 with
    | Except.error _ => Except.ok (i, acc)
    | Except.ok (i2, kv) =>
      if i2.length == len then Except.error ⟨i2, ErrorKind.separatedList⟩
      else sepListLoop fuel i2 (acc ++ [kv])

/-- nom separated_list0(space0, separated_pair(alphanumeric1, char '=',
alphanumeric1)): an empty list on immediate element failure. -/
def separated_list0_props (i : List Char) : NomRes (List (List Char × List Char)) :=
  match parse_prop_pair i with
  | Except.error _ => Except.ok (i, [])
  | Except.ok (i1, kv) => sepListLoop (i1.length + 1) i1 [kv]

/-- HashMap insert: overwrite the value when the key exists. -/
def insertProp (m : Props) (k v : String) : Props :=
  if m.any fun p => p.1 == k then
    m.map fun p => if p.1 == k then (k, v) else p
  else m ++ [(k, v)]

/-- Collecting Vec of pairs into a HashMap: later occurrences of a key win. -/
def collectProps (l : List (List Char × List Char)) : Props :=
  l.foldl (fun m kv => insertProp m (String.mk kv.1) (String.mk kv.2)) []

/-- parse_properties: optional trailing comment, then the property list. -/
def parse_properties (i : List Char) : NomRes Props :=
  let i1 := optComment i
  match separated_list0_props i1 with
  | Except.error e => Except.error e
  | Except.ok (i2, l) => Except.ok (i2, collectProps l)

def digitsToNat (l : List Char) : Nat :=
  l.foldl (fun a c => a * 10 + (c.toNat - 48)) 0

/-- Modelled from the spec: the duration token grammar of the external
duration_str crate (a collaborator crate, not part of src): a digit
magnitude followed by an optional unit token, as in the spec examples
15m, 1h, 360s, with bare digits meaning seconds. -/
def duration_str_parse (s : List Char) : Option Nat :=
  let digits := s.takeWhile Char.isDigit
  let unit := s.drop digits.length
  if digits.isEmpty then none
  else if unit = [] then some (digitsToNat digits)
  else if unit = ['s'] then some (digitsToNat digits)
  else if unit = ['m'] then some (digitsToNat digits * 60)
  else if unit = ['h'] then some (digitsToNat digits * 3600)
  else none

/-- TryFrom of WallpaperDuration: the literal infinite, or duration_str. -/
def duration_try_from (s : List Char) : Option CmdDuration :=
  if s = "infinite".toList then some CmdDuration.infinite
  else (duration_str_parse s).map CmdDuration.finite

/-- parse_duration: optional comment, then map_res(take_till1 whitespace,
WallpaperDuration::try_from); a failed conversion is a MapRes error at the
input handed to map_res. -/
def parse_duration (i : List Char) : NomRes CmdDuration :=
  let i1 := optComment i
  match takeTill1P (fun c => c.isWhitespace) i1 with
  | Except.error e => Except.error e
  | Except.ok (i2, tok) =>
    match duration_try_from tok with
    | some d => Except.ok (i2, d)
    | none => Except.error ⟨i1, ErrorKind.mapRes⟩

def parse_end (i : List Char) : NomRes Command :=
  match tagP "end" i with
  | Except.error e => Except.error e
  | Except.ok (i1, _) => Except.ok (i1, Command.end_)

def parse_sleep (i : List Char) : NomRes Command :=
  match tagP "sleep" i with
  | Except.error e => Except.error e
  | Except.ok (i1, _) =>
    match parse_duration (space0 i1) with
    | Except.error e => Except.error e
    | Except.ok (i2, d) => Except.ok (i2, Command.sleep d)

def parse_default (i : List Char) : NomRes Command :=
  match tagP "default" i with
  | Except.error e => Except.error e
  | Except.ok (i1, _) =>
    match parse_properties (space0 i1) with
    | Except.error e => Except.error e
    | Except.ok (i2, props) => Except.ok (i2, Command.default props)

def parse_wallpaper (i : List Char) : NomRes Command :=
  match takeTill1P (fun c => c.isWhitespace || c == '#') i with
  | Except.error e => Except.error e
  | Except.ok (i1, name) =>
    match parse_duration (space0 i1) with
    | Except.error e => Except.error e
    | Except.ok (i2, d) =>
      match parse_properties (space0 i2) with
      | Except.error e => Except.error e
      | Except.ok (i3, props) =>
        Except.ok (i3, Command.wallpaper (String.mk name) d props)

/-- parse_command: alt over the four parsers.  nom alt returns the first
success; when all alternatives fail it surfaces the error of the last one
(Error::append keeps the inner error for the default error type). -/
def parse_command (i : List Char) : NomRes Command :=
  match parse_end i with
  | Except.ok r => Except.ok r
  | Except.error _ =>
    match parse_sleep i with
    | Except.ok r => Except.ok r
    | Except.error _ =>
      match parse_default i with
      | Except.ok r => Except.ok r
      | Except.error _ => parse_wallpaper i

/-- Public parse of commands.rs: finish() discards the unconsumed input; a
TakeTill1 error becomes NotEnoughArguments, a MapRes error becomes
InvalidArgument, anything else CommandNotFound. -/
def parseChars (i : List Char) : Except ParseError Command :=
  match parse_command i with
  | Except.ok (_, cmd) => Except.ok cmd
  | Except.error e =>
    match e.kind with
    | ErrorKind.takeTill1 => Except.error ParseError.notEnoughArguments
    | ErrorKind.mapRes => Except.error ParseError.invalidArgument
    | _ => Except.error ParseError.commandNotFound

def parse (s : String) : Except ParseError Command :=
  parseChars s.toList

end Commands

namespace Playlist

/-- Rust str::trim: strip whitespace from both ends. -/
def trimChars (l : List Char) : List Char :=
  ((l.dropWhile Char.isWhitespace).reverse.dropWhile Char.isWhitespace).reverse

/-- One line of utils/playlist.rs parse: blank and comment-only lines give
nothing, a parse error is logged and skipped (None), a parsed Command kept. -/
def lineCommand (l : String) : Option Command :=
  let t := trimChars l.toList
  if t.isEmpty then none
  else if t.headD ' ' == '#' then none
  else (Commands.parseChars t).toOption

/-- The filter_map over the lines of the playlist file. -/
def parseLines (lines : List String) : List Command :=
  lines.filterMap lineCommand

/-- utils/playlist.rs parse: None when no line yields a valid Command. -/
def parse (lines : List String) : Option (List Command) :=
  let result := parseLines lines
  if result.isEmpty then none else some result

end Playlist

namespace Exec

/- Embedding of runner/exec.rs. -/

/-- Outcome of spawning the backend system command, an environment input. -/
inductive SpawnOutcome where
  | ok (pid : Nat)
  | err
deriving DecidableEq

/-- ExecType of runner/exec.rs: Supervise holds the child, Sleep has none. -/
inductive ExecType where
  | supervise (pid : Nat)
  | sleep
deriving DecidableEq

/-- Execution with its ExecInfo; the start instant is kept implicit and
elapsed time is supplied where needed.  The duration field is ExecInfo::
duration: Some for a finite command duration, None for Infinite. -/
structure Execution where
  kind : ExecType
  duration : Option Nat
deriving DecidableEq

/-- Execution::begin.  For a Wallpaper command the backend command is
spawned and the result unwrapped: a failed spawn is a panic, modelled as
none.  Default and End commands hit the unreachable branch, also a panic. -/
def begin (cmd : Command) (spawn : SpawnOutcome) : Option Execution :=
  match cmd with
  | Command.wallpaper _ duration _ =>
    match spawn with
    | SpawnOutcome.err => none
    | SpawnOutcome.ok pid =>
      match duration with
      | CmdDuration.finite d => some ⟨ExecType.supervise pid, some d⟩
      | CmdDuration.infinite => some ⟨ExecType.supervise pid, none⟩
  | Command.sleep duration =>
    match duration with
    | CmdDuration.finite d => some ⟨ExecType.sleep, some d⟩
    | CmdDuration.infinite => some ⟨ExecType.sleep, none⟩
  | _ => none

/-- Subtraction of std::time::Duration values: panics (none) when the
subtrahend exceeds the minuend. -/
def durSub (a b : Nat) : Option Nat :=
  if b ≤ a then some (a - b) else none

/-- Execution::remaining applied to the configured duration and the time
elapsed since the Execution began.  The outer Option is the panic layer:
none means the Duration subtraction inside the map overflowed. -/
def remaining (duration : Option Nat) (elapsed : Nat) : Option (Option Nat) :=
  match duration with
  | none => some none
  | some expected => (durSub expected elapsed).map some

end Exec

namespace Runner

/- Embedding of the Runner loop of runner/imp.rs and the cursor operations
of runner/mod.rs. -/

/-- Modulus of usize arithmetic (release mode wraps instead of panicking). -/
def USIZE : Nat := 2 ^ 64

/-- Runner::next, the wrapping usize increment of the cursor. -/
def nextIndex (i : Nat) : Nat := (i + 1) % USIZE

/-- Runner::prev, the unguarded wrapping usize decrement of the cursor. -/
def prevIndex (i : Nat) : Nat := (i + (USIZE - 1)) % USIZE

/-- Cursor normalization at the top of Runner::run: an index at or past the
end of the command list is reset to 0 before the command is fetched. -/
def dispatchIndex (idx len : Nat) : Nat :=
  if len ≤ idx then 0 else idx

/-- LoopFlag of runner/imp.rs. -/
inductive LoopFlag where
  | brk
  | cont
  | nothing
deriving DecidableEq

/-- Observable events of one Runner in order of occurrence. -/
inductive Event where
  | begin (cmd : Command)
  | stateRunning
  | cleanup
  | statePaused
  | recv
  | stateExited
deriving DecidableEq

/-- Runner state shared through the RunnerHandle: cursor, command list,
accumulated backend default properties and whether the loop has ended. -/
structure RState where
  index : Nat
  commands : List Command
  defaults : Props
  exited : Bool
deriving DecidableEq

/-- Runner::exec_async.  The first element of env is the ExecResult the
current Execution reports; an Interrupted(Exec cmd) recursion consumes
further elements.  Returns the LoopFlag, the cursor after any prev/goto
performed inside, the emitted events and the unconsumed environment; none
models a result that never arrives (exhausted oracle) or the panic on an
Execution of a Default or End command. -/
def execAsync : Nat → Command → List ExecResult →
    Option (LoopFlag × Nat × List Event × List ExecResult)
  | _, _, [] => none
  | idx, cmd, r :: rest =>
    match cmd with
    | Command.default _ => none
    | Command.end_ => none
    | cmd =>
      let pre := [Event.begin cmd, Event.stateRunning]
      match r with
      | ExecResult.elapsed => some (LoopFlag.nothing, idx, pre ++ [Event.cleanup], rest)
      | ExecResult.error => some (LoopFlag.nothing, idx, pre ++ [Event.cleanup], rest)
      | ExecResult.interrupted a =>
        match a with
        | Action.next => some (LoopFlag.nothing, idx, pre ++ [Event.cleanup], rest)
        | Action.prev => some (LoopFlag.cont, prevIndex idx, pre ++ [Event.cleanup], rest)
        | Action.goto i => some (LoopFlag.cont, i, pre ++ [Event.cleanup], rest)
        | Action.exec cmd2 =>
          (execAsync idx cmd2 rest).map fun out =>
            (out.1, out.2.1, pre ++ [Event.cleanup] ++ out.2.2.1, out.2.2.2)
        | Action.pause clear =>
          some (LoopFlag.nothing, idx,
            pre ++ (if clear then [Event.cleanup] else [])
              ++ [Event.statePaused, Event.recv], rest)
        | Action.exit => some (LoopFlag.brk, idx, pre ++ [Event.cleanup], rest)

/-- One iteration of the main loop of Runner::run: normalize the cursor,
fetch the command there, dispatch it, then advance the cursor unless the
iteration broke or continued.  none models an exited runner (the loop has
returned) or an exec_async call whose result never arrives. -/
def runStep (s : RState) (env : List ExecResult) :
    Option (RState × List Event × List ExecResult) :=
  if s.exited then none
  else
    let len := s.commands.length
    let d := dispatchIndex s.index len
    match s.commands[d]? with
    | none => some ({ s with index := nextIndex d }, [], env)
    | some cmd =>
      match cmd with
      | Command.default props => some ({ s with index := nextIndex d, defaults := props }, [], env)
      | Command.end_ => some ({ s with index := d, exited := true }, [Event.stateExited], env)
      | cmd =>
        (execAsync d cmd env).map fun out =>
          match out with
          | (LoopFlag.nothing, i, evs, env') => ({ s with index := nextIndex i }, evs, env')
          | (LoopFlag.cont, i, evs, env') => ({ s with index := i }, evs, env')
          | (LoopFlag.brk, i, evs, env') =>
            ({ s with index := i, exited := true }, evs ++ [Event.stateExited], env')

/-- Event trace of at most n loop iterations. -/
def runTrace : Nat → RState → List ExecResult → List Event
  | 0, _, _ => []
  | n + 1, s, env =>
    match runStep s env with
    | none => []
    | some (s', evs, env') => evs ++ runTrace n s' env'

/-- States reachable from a given state by iterating the loop under some
environment. -/
inductive Reachable : RState → RState → Prop where
  | refl (s : RState) : Reachable s s
  | step {s t u : RState} {env evs env'} :
      Reachable s t → runStep t env = some (u, evs, env') → Reachable s u

/-- Runner::new of runner/imp.rs: fileLines is none when playlist::open
fails; an unparsable or empty playlist is RunnerError::InitFailed; otherwise
the handle starts at cursor 0 in state Ready with empty backend defaults. -/
def runnerNew (fileLines : Option (List String)) : Except RunnerError RState :=
  match fileLines with
  | none => Except.error RunnerError.initFailed
  | some lines =>
    match Playlist.parse lines with
    | none => Except.error RunnerError.initFailed
    | some cmds => Except.ok { index := 0, commands := cmds, defaults := [], exited := false }

/-- Scans an event trace checking that a cleanup stands between every two
begin events.  The Bool carries whether the previous Execution, if any, has
been cleaned up; the scan fails (none) at a begin event while an earlier
Execution is still unreleased. -/
def scanClean : List Event → Bool → Option Bool
  | [], b => some b
  | e :: r, b =>
    match e with
    | Event.begin _ => if b then scanClean r false else none
    | Event.cleanup => scanClean r true
    | _ => scanClean r b

/-- Whether every Execution begun after the first one in the trace is
preceded by a cleanup of the previous Execution. -/
def cleanupBeforeNextBegin (t : List Event) : Bool :=
  (scanClean t true).isSome

end Runner

namespace Daemon

/- Embedding of the registry handling of daemon.rs. -/

/-- The registry view of a RunnerHandle: an identity and its exited flag. -/
structure RHandle where
  id : Nat
  exited : Bool
deriving DecidableEq

/-- The monitor to handle map, keys unique as in a HashMap. -/
abbrev Registry := List (String × RHandle)

def lookupKey : Registry → String → Option RHandle
  | [], _ => none
  | (k, h) :: rest, m => if k = m then some h else lookupKey rest m

/-- LxWEngd::try_cleanup: drop every handle whose runner has exited. -/
def tryCleanup (rs : Registry) : Registry :=
  rs.filter fun x => !x.2.exited

/-- Reply written back to the requesting connection by the load branch. -/
inductive LoadResponse where
  | ok
  | alreadyInUse (monitor : String)
  | error (e : RunnerError)
deriving DecidableEq

/-- The Load branch of LxWEngd::start: purge exited handles; an occupied
monitor fails without touching anything else; otherwise construct the
Runner and register its handle on success.  The Bool records whether
Runner::new was invoked. -/
def loadStep (rs : Registry) (monitor : String)
    (mk : Unit → Except RunnerError RHandle) :
    Registry × LoadResponse × Bool :=
  let purged := tryCleanup rs
  if (lookupKey purged monitor).isSome then
    (purged, LoadResponse.alreadyInUse monitor, false)
  else
    match mk () with
    | Except.ok h => ((monitor, h) :: purged, LoadResponse.ok, true)
    | Except.error e => (purged, LoadResponse.error e, true)

end Daemon

/-
Theorems.  Shared helper lemmas come first; each claim then has exactly one
theorem, with a witness where the theorem carries hypotheses.
-/

open Runner

/-- A loop iteration never changes the command list. -/
theorem runStep_commands {s : RState} {env : List ExecResult}
    {s' : RState} {evs : List Event} {env' : List ExecResult}
    (h : runStep s env = some (s', evs, env')) : s'.commands = s.commands := by
  simp only [runStep] at h
  split at h
  · exact Option.noConfusion h
  · split at h
    · cases h
      rfl
    · rename_i cmd heq
      cases cmd
      · rw [Option.map_eq_some'] at h
        obtain ⟨⟨f, i, evs0, env0⟩, _, h2⟩ := h
        cases f <;> cases h2 <;> rfl
      · rw [Option.map_eq_some'] at h
        obtain ⟨⟨f, i, evs0, env0⟩, _, h2⟩ := h
        cases f <;> cases h2 <;> rfl
      · cases h
        rfl
      · cases h
        rfl

/-- Reachability preserves the command list. -/
theorem reachable_commands {s0 s : RState} (h : Reachable s0 s) :
    s.commands = s0.commands := by
  induction h with
  | refl => rfl
  | step _ hstep ih => rw [runStep_commands hstep, ih]

/-- A successful Runner::new yields a nonempty command list at cursor 0. -/
theorem runnerNew_ok {lines : List String} {s0 : RState}
    (h : runnerNew (some lines) = Except.ok s0) :
    s0.commands ≠ [] ∧ s0.index = 0 ∧ s0.exited = false := by
  simp only [runnerNew, Playlist.parse] at h
  split at h
  · exact Except.noConfusion h
  · rename_i cmds heq
    cases h
    split at heq
    · exact Option.noConfusion heq
    · rename_i hne
      cases heq
      exact ⟨by simpa [List.isEmpty_iff] using hne, rfl, rfl⟩

/-- Normalization puts the dispatch position inside a nonempty list. -/
theorem dispatchIndex_lt (idx : Nat) {len : Nat} (h : 0 < len) :
    dispatchIndex idx len < len := by
  unfold dispatchIndex
  split
  · exact h
  · omega

/-- C3: for every state reachable from a Runner constructed out of a
playlist with at least one valid Command, the normalized cursor position is
strictly below the command count, hence the command fetch at the top of the
loop always succeeds. -/
theorem cursor_wrap_invariant (lines : List String) (s0 s : RState)
    (h0 : runnerNew (some lines) = Except.ok s0)
    (hr : Reachable s0 s) :
    dispatchIndex s.index s.commands.length < s.commands.length
    ∧ (s.commands[dispatchIndex s.index s.commands.length]?).isSome := by
  obtain ⟨hne, _, _⟩ := runnerNew_ok h0
  have hcmds : s.commands = s0.commands := reachable_commands hr
  have hlen : 0 < s.commands.length := by
    rw [hcmds]
    exact List.length_pos.mpr hne
  have hd := dispatchIndex_lt s.index hlen
  refine ⟨hd, ?_⟩
  rw [List.getElem?_eq_getElem hd]
  rfl

theorem cursor_wrap_invariant_witness :
    dispatchIndex (RState.mk 0 [Command.end_] [] false).index
        (RState.mk 0 [Command.end_] [] false).commands.length
      < (RState.mk 0 [Command.end_] [] false).commands.length
    ∧ ((RState.mk 0 [Command.end_] [] false).commands[dispatchIndex
        (RState.mk 0 [Command.end_] [] false).index
        (RState.mk 0 [Command.end_] [] false).commands.length]?).isSome :=
  cursor_wrap_invariant ["end"] (RState.mk 0 [Command.end_] [] false)
    (RState.mk 0 [Command.end_] [] false) (by decide)
    (Reachable.refl (RState.mk 0 [Command.end_] [] false))

/-- A command list lookup that succeeds bounds the looked up position. -/
theorem getElem?_some_lt {l : List Command} {n : Nat} {cmd : Command}
    (h : l[n]? = some cmd) : n < l.length := by
  rcases List.getElem?_eq_some.mp h with ⟨h1, _⟩
  exact h1

/-- A loop iteration on a long running command is exec_async followed by
the LoopFlag dispatch of Runner::run. -/
theorem runStep_long_running {s : RState} {cmd : Command} (env : List ExecResult)
    (hx : s.exited = false)
    (hc : s.commands[dispatchIndex s.index s.commands.length]? = some cmd)
    (hl : cmd.isLongRunning = true) :
    runStep s env = (execAsync (dispatchIndex s.index s.commands.length) cmd env).map
      (fun out =>
        match out with
        | (LoopFlag.nothing, i, evs, env') => ({ s with index := nextIndex i }, evs, env')
        | (LoopFlag.cont, i, evs, env') => ({ s with index := i }, evs, env')
        | (LoopFlag.brk, i, evs, env') =>
          ({ s with index := i, exited := true }, evs ++ [Event.stateExited], env')) := by
  cases cmd with
  | wallpaper n d p => simp only [runStep, hx, Bool.false_eq_true, if_false, hc]
  | sleep d => simp only [runStep, hx, Bool.false_eq_true, if_false, hc]
  | end_ => simp [Command.isLongRunning] at hl
  | default p => simp [Command.isLongRunning] at hl

/-- exec_async on a Goto interruption: index set to the target, Continue. -/
theorem execAsync_goto {cmd : Command} (idx i : Nat) (env' : List ExecResult)
    (hl : cmd.isLongRunning = true) :
    execAsync idx cmd (ExecResult.interrupted (Action.goto i) :: env')
      = some (LoopFlag.cont, i,
          [Event.begin cmd, Event.stateRunning, Event.cleanup], env') := by
  cases cmd with
  | wallpaper n d p => simp [execAsync]
  | sleep d => simp [execAsync]
  | end_ => simp [Command.isLongRunning] at hl
  | default p => simp [Command.isLongRunning] at hl

/-- exec_async on a Prev interruption: wrapping decrement, Continue. -/
theorem execAsync_prev {cmd : Command} (idx : Nat) (env' : List ExecResult)
    (hl : cmd.isLongRunning = true) :
    execAsync idx cmd (ExecResult.interrupted Action.prev :: env')
      = some (LoopFlag.cont, prevIndex idx,
          [Event.begin cmd, Event.stateRunning, Event.cleanup], env') := by
  cases cmd with
  | wallpaper n d p => simp [execAsync]
  | sleep d => simp [execAsync]
  | end_ => simp [Command.isLongRunning] at hl
  | default p => simp [Command.isLongRunning] at hl

/-- exec_async on a Pause interruption: cleanup only when clear, state set
to Paused, one silent channel read, index untouched, flag Nothing. -/
theorem execAsync_pause {cmd : Command} (idx : Nat) (clear : Bool) (env' : List ExecResult)
    (hl : cmd.isLongRunning = true) :
    execAsync idx cmd (ExecResult.interrupted (Action.pause clear) :: env')
      = some (LoopFlag.nothing, idx,
          [Event.begin cmd, Event.stateRunning]
            ++ (if clear then [Event.cleanup] else [])
            ++ [Event.statePaused, Event.recv], env') := by
  cases cmd with
  | wallpaper n d p => simp [execAsync]
  | sleep d => simp [execAsync]
  | end_ => simp [Command.isLongRunning] at hl
  | default p => simp [Command.isLongRunning] at hl

/-- C6: a Goto(i) interruption makes the very next dispatch happen at index
i, whatever the prior cursor value was, and the command fetched there is
exactly the one stored at index i. -/
theorem goto_dispatches_target (s : RState) (cmd : Command) (i : Nat)
    (env' : List ExecResult)
    (hx : s.exited = false)
    (hc : s.commands[dispatchIndex s.index s.commands.length]? = some cmd)
    (hl : cmd.isLongRunning = true)
    (hi : i < s.commands.length) :
    runStep s (ExecResult.interrupted (Action.goto i) :: env')
      = some ({ s with index := i },
          [Event.begin cmd, Event.stateRunning, Event.cleanup], env')
    ∧ dispatchIndex i s.commands.length = i
    ∧ s.commands[dispatchIndex i s.commands.length]? = some s.commands[i] := by
  have hstep := runStep_long_running
    (ExecResult.interrupted (Action.goto i) :: env') hx hc hl
  rw [execAsync_goto _ i env' hl] at hstep
  have hdi : dispatchIndex i s.commands.length = i := by
    unfold dispatchIndex
    rw [if_neg (by omega)]
  refine ⟨hstep, hdi, ?_⟩
  rw [hdi]
  exact List.getElem?_eq_getElem hi

theorem goto_dispatches_target_witness :
    runStep (RState.mk 5 [Command.sleep (CmdDuration.finite 1),
        Command.sleep (CmdDuration.finite 2), Command.sleep (CmdDuration.finite 3)] [] false)
      (ExecResult.interrupted (Action.goto 2) :: [])
      = some (RState.mk 2 [Command.sleep (CmdDuration.finite 1),
            Command.sleep (CmdDuration.finite 2), Command.sleep (CmdDuration.finite 3)] [] false,
          [Event.begin (Command.sleep (CmdDuration.finite 1)), Event.stateRunning, Event.cleanup], [])
    ∧ dispatchIndex 2 3 = 2
    ∧ ([Command.sleep (CmdDuration.finite 1), Command.sleep (CmdDuration.finite 2),
        Command.sleep (CmdDuration.finite 3)] : List Command)[dispatchIndex 2 3]?
      = some (Command.sleep (CmdDuration.finite 3)) := by
  have := goto_dispatches_target
    (RState.mk 5 [Command.sleep (CmdDuration.finite 1),
      Command.sleep (CmdDuration.finite 2), Command.sleep (CmdDuration.finite 3)] [] false)
    (Command.sleep (CmdDuration.finite 1)) 2 [] rfl (by decide) rfl (by decide)
  simpa using this

/-- C10 counterexample: at cursor 0 the unguarded usize decrement of the
Prev branch underflows and wraps to the maximal usize value, instead of
yielding the arithmetic predecessor. -/
theorem prev_at_zero_underflows :
    prevIndex 0 = 2 ^ 64 - 1 ∧ prevIndex 0 + 1 ≠ 0 := by
  constructor
  · decide
  · decide

/-- C10 amended: the Prev branch decrements with wrapping usize semantics
(at cursor 0 the index becomes the maximal usize value); the normalization
at the top of the loop then resets any out of range cursor to 0, so the
dispatch after a Prev interruption is still at a valid index. -/
theorem prev_wrap_dispatch_valid (s : RState) (cmd : Command)
    (env' : List ExecResult)
    (hx : s.exited = false)
    (hc : s.commands[dispatchIndex s.index s.commands.length]? = some cmd)
    (hl : cmd.isLongRunning = true) :
    runStep s (ExecResult.interrupted Action.prev :: env')
      = some ({ s with index := prevIndex (dispatchIndex s.index s.commands.length) },
          [Event.begin cmd, Event.stateRunning, Event.cleanup], env')
    ∧ dispatchIndex (prevIndex (dispatchIndex s.index s.commands.length))
        s.commands.length < s.commands.length := by
  have hstep := runStep_long_running
    (ExecResult.interrupted Action.prev :: env') hx hc hl
  rw [execAsync_prev _ env' hl] at hstep
  have hlen : 0 < s.commands.length :=
    Nat.lt_of_le_of_lt (Nat.zero_le _) (getElem?_some_lt hc)
  exact ⟨hstep, dispatchIndex_lt _ hlen⟩

theorem prev_wrap_dispatch_valid_witness :
    runStep (RState.mk 0 [Command.sleep (CmdDuration.finite 1),
        Command.sleep (CmdDuration.finite 2)] [] false)
      (ExecResult.interrupted Action.prev :: [])
      = some (RState.mk (prevIndex (dispatchIndex 0 2))
            [Command.sleep (CmdDuration.finite 1), Command.sleep (CmdDuration.finite 2)] [] false,
          [Event.begin (Command.sleep (CmdDuration.finite 1)), Event.stateRunning, Event.cleanup], [])
    ∧ dispatchIndex (prevIndex (dispatchIndex 0 2)) 2 < 2 := by
  have := prev_wrap_dispatch_valid
    (RState.mk 0 [Command.sleep (CmdDuration.finite 1), Command.sleep (CmdDuration.finite 2)] [] false)
    (Command.sleep (CmdDuration.finite 1)) [] rfl (by decide) rfl
  simpa using this

/-- C2 counterexample: a Pause with clear false interruption followed by the
one resuming Action does not resume at the same command: from cursor 0 the
next dispatch happens at index 1, not 0. -/
theorem pause_resume_advances_cex :
    (runStep (RState.mk 0 [Command.sleep (CmdDuration.finite 10),
        Command.sleep (CmdDuration.finite 20)] [] false)
      [ExecResult.interrupted (Action.pause false)]).map
        (fun out => dispatchIndex out.1.index out.1.commands.length) = some 1
    ∧ (1 : Nat) ≠ 0 := by
  constructor
  · decide
  · decide

/-- C2 amended: on Interrupted(Pause(clear)) the Runner cleans up exactly
when clear is set, enters the Paused state, consumes one more Action from
the channel silently (the result handling table is not applied to it and
the rest of the environment is untouched), and then resumes the loop at the
NEXT command: the cursor at the following dispatch is the paused position
plus one, not the paused position itself. -/
theorem pause_resume_behaviour (s : RState) (cmd : Command) (clear : Bool)
    (env' : List ExecResult)
    (hx : s.exited = false)
    (hc : s.commands[dispatchIndex s.index s.commands.length]? = some cmd)
    (hl : cmd.isLongRunning = true)
    (hlen : s.commands.length < 2 ^ 64) :
    runStep s (ExecResult.interrupted (Action.pause clear) :: env')
      = some ({ s with index := dispatchIndex s.index s.commands.length + 1 },
          [Event.begin cmd, Event.stateRunning]
            ++ (if clear then [Event.cleanup] else [])
            ++ [Event.statePaused, Event.recv], env') := by
  have hstep := runStep_long_running
    (ExecResult.interrupted (Action.pause clear) :: env') hx hc hl
  rw [execAsync_pause _ clear env' hl] at hstep
  have hd : dispatchIndex s.index s.commands.length < s.commands.length :=
    getElem?_some_lt hc
  have hnext : nextIndex (dispatchIndex s.index s.commands.length)
      = dispatchIndex s.index s.commands.length + 1 := by
    unfold nextIndex USIZE
    exact Nat.mod_eq_of_lt (by omega)
  rw [hstep]
  dsimp only [Option.map_some']
  rw [hnext]

theorem pause_resume_behaviour_witness :
    runStep (RState.mk 0 [Command.sleep (CmdDuration.finite 10),
        Command.sleep (CmdDuration.finite 20)] [] false)
      (ExecResult.interrupted (Action.pause true) :: [])
      = some (RState.mk (dispatchIndex 0 2 + 1)
            [Command.sleep (CmdDuration.finite 10), Command.sleep (CmdDuration.finite 20)] [] false,
          [Event.begin (Command.sleep (CmdDuration.finite 10)), Event.stateRunning]
            ++ (if true then [Event.cleanup] else [])
            ++ [Event.statePaused, Event.recv], []) := by
  have := pause_resume_behaviour
    (RState.mk 0 [Command.sleep (CmdDuration.finite 10), Command.sleep (CmdDuration.finite 20)] [] false)
    (Command.sleep (CmdDuration.finite 10)) true [] rfl (by decide) rfl (by decide)
  simpa using this

/-- Scanning a concatenated trace composes through Option.bind. -/
theorem scanClean_append (xs ys : List Event) (b : Bool) :
    scanClean (xs ++ ys) b = (scanClean xs b).bind fun b' => scanClean ys b' := by
  induction xs generalizing b with
  | nil => simp [scanClean]
  | cons e r ih =>
    cases e <;> cases b <;> simp [scanClean, ih]

/-- When no Pause with clear false result is consumed, the events of one
exec_async call scan cleanly and end with the last begun Execution cleaned
up; the unconsumed environment keeps the absence of Pause with clear false. -/
theorem execAsync_scanClean : ∀ (env : List ExecResult) (idx : Nat) (cmd : Command)
    (out : LoopFlag × Nat × List Event × List ExecResult),
    execAsync idx cmd env = some out →
    ExecResult.interrupted (Action.pause false) ∉ env →
    scanClean out.2.2.1 true = some true
      ∧ ExecResult.interrupted (Action.pause false) ∉ out.2.2.2
  | [], idx, cmd, out, h, _ => by simp [execAsync] at h
  | r :: rest, idx, cmd, out, h, hp => by
    have hphead : ExecResult.interrupted (Action.pause false) ≠ r := fun hco => hp (hco ▸ List.mem_cons_self _ _)
    have hprest : ExecResult.interrupted (Action.pause false) ∉ rest :=
      fun hm => hp (List.mem_cons_of_mem _ hm)
    have hbody : ∀ cmd2 : Command, cmd2.isLongRunning = true →
        execAsync idx cmd2 (r :: rest) = some out →
        scanClean out.2.2.1 true = some true
          ∧ ExecResult.interrupted (Action.pause false) ∉ out.2.2.2 := by
      intro cmd2 hl2 h2
      cases r with
      | elapsed =>
        rw [show execAsync idx cmd2 (ExecResult.elapsed :: rest)
            = some (LoopFlag.nothing, idx,
                [Event.begin cmd2, Event.stateRunning, Event.cleanup], rest) from by
          cases cmd2 <;> simp [execAsync, Command.isLongRunning] at hl2 ⊢] at h2
        cases h2
        exact ⟨rfl, hprest⟩
      | error =>
        rw [show execAsync idx cmd2 (ExecResult.error :: rest)
            = some (LoopFlag.nothing, idx,
                [Event.begin cmd2, Event.stateRunning, Event.cleanup], rest) from by
          cases cmd2 <;> simp [execAsync, Command.isLongRunning] at hl2 ⊢] at h2
        cases h2
        exact ⟨rfl, hprest⟩
      | interrupted a =>
        cases a with
        | next =>
          rw [show execAsync idx cmd2 (ExecResult.interrupted Action.next :: rest)
              = some (LoopFlag.nothing, idx,
                  [Event.begin cmd2, Event.stateRunning, Event.cleanup], rest) from by
            cases cmd2 <;> simp [execAsync, Command.isLongRunning] at hl2 ⊢] at h2
          cases h2
          exact ⟨rfl, hprest⟩
        | prev =>
          rw [execAsync_prev idx rest hl2] at h2
          cases h2
          exact ⟨rfl, hprest⟩
        | goto i =>
          rw [execAsync_goto idx i rest hl2] at h2
          cases h2
          exact ⟨rfl, hprest⟩
        | exec cmd3 =>
          rw [show execAsync idx cmd2 (ExecResult.interrupted (Action.exec cmd3) :: rest)
              = (execAsync idx cmd3 rest).map fun inner =>
                  (inner.1, inner.2.1,
                    [Event.begin cmd2, Event.stateRunning, Event.cleanup] ++ inner.2.2.1,
                    inner.2.2.2) from by
            cases cmd2 <;> simp [execAsync, Command.isLongRunning] at hl2 ⊢] at h2
          rw [Option.map_eq_some'] at h2
          obtain ⟨inner, hinner, hout⟩ := h2
          obtain ⟨hs, hn⟩ := execAsync_scanClean rest idx cmd3 inner hinner hprest
          subst hout
          refine ⟨?_, hn⟩
          show scanClean ([Event.begin cmd2, Event.stateRunning, Event.cleanup]
            ++ inner.2.2.1) true = some true
          rw [scanClean_append]
          exact hs
        | pause clear =>
          cases clear with
          | false => exact absurd rfl hphead
          | true =>
            rw [execAsync_pause idx true rest hl2] at h2
            cases h2
            exact ⟨rfl, hprest⟩
        | exit =>
          rw [show execAsync idx cmd2 (ExecResult.interrupted Action.exit :: rest)
              = some (LoopFlag.brk, idx,
                  [Event.begin cmd2, Event.stateRunning, Event.cleanup], rest) from by
            cases cmd2 <;> simp [execAsync, Command.isLongRunning] at hl2 ⊢] at h2
          cases h2
          exact ⟨rfl, hprest⟩
    cases cmd with
    | wallpaper n d p => exact hbody (Command.wallpaper n d p) rfl h
    | sleep d => exact hbody (Command.sleep d) rfl h
    | end_ => simp [execAsync] at h
    | default p => simp [execAsync] at h

/-- One loop iteration scans cleanly when no Pause with clear false result
is consumed, and passes the absence on to the remaining environment. -/
theorem runStep_scanClean {s : RState} {env : List ExecResult}
    {s' : RState} {evs : List Event} {env' : List ExecResult}
    (h : runStep s env = some (s', evs, env'))
    (hp : ExecResult.interrupted (Action.pause false) ∉ env) :
    scanClean evs true = some true
      ∧ ExecResult.interrupted (Action.pause false) ∉ env' := by
  simp only [runStep] at h
  split at h
  · exact Option.noConfusion h
  · split at h
    · cases h
      exact ⟨rfl, hp⟩
    · rename_i cmd heq
      have hexec : ∀ (h2 : (execAsync (dispatchIndex s.index s.commands.length) cmd env).map
          (fun out =>
            match out with
            | (LoopFlag.nothing, i, evs, env') => ({ s with index := nextIndex i }, evs, env')
            | (LoopFlag.cont, i, evs, env') => ({ s with index := i }, evs, env')
            | (LoopFlag.brk, i, evs, env') =>
              ({ s with index := i, exited := true }, evs ++ [Event.stateExited], env'))
          = some (s', evs, env')),
          scanClean evs true = some true
            ∧ ExecResult.interrupted (Action.pause false) ∉ env' := by
        intro h2
        rw [Option.map_eq_some'] at h2
        obtain ⟨⟨f, i, evs0, env0⟩, hinner, hout⟩ := h2
        obtain ⟨hs, hn⟩ := execAsync_scanClean env _ cmd _ hinner hp
        cases f with
        | nothing =>
          cases hout
          exact ⟨hs, hn⟩
        | cont =>
          cases hout
          exact ⟨hs, hn⟩
        | brk =>
          cases hout
          refine ⟨?_, hn⟩
          rw [scanClean_append, hs]
          rfl
      cases cmd with
      | wallpaper n d p => exact hexec h
      | sleep d => exact hexec h
      | end_ =>
        cases h
        exact ⟨rfl, hp⟩
      | default p =>
        cases h
        exact ⟨rfl, hp⟩

/-- The whole run trace scans cleanly when the environment never delivers a
Pause with clear false interruption. -/
theorem runTrace_scanClean : ∀ (n : Nat) (s : RState) (env : List ExecResult),
    ExecResult.interrupted (Action.pause false) ∉ env →
    scanClean (runTrace n s env) true = some true
  | 0, _, _, _ => rfl
  | n + 1, s, env, hp => by
    unfold runTrace
    cases hstep : runStep s env with
    | none => rfl
    | some out =>
      obtain ⟨s', evs, env'⟩ := out
      obtain ⟨h1, h2⟩ := runStep_scanClean hstep hp
      rw [scanClean_append, h1]
      exact runTrace_scanClean n s' env' h2

/-- C1 counterexample: in a run whose first Execution is interrupted by
Pause with clear false and then resumed, a second Execution is constructed
while the first was never cleaned up, so two children can be live at once. -/
theorem pause_false_two_live_children_cex :
    cleanupBeforeNextBegin (runTrace 2
      (RState.mk 0 [Command.wallpaper "1" (CmdDuration.finite 1) [],
        Command.wallpaper "2" (CmdDuration.finite 1) []] [] false)
      [ExecResult.interrupted (Action.pause false), ExecResult.elapsed]) = false
    ∧ runTrace 2
      (RState.mk 0 [Command.wallpaper "1" (CmdDuration.finite 1) [],
        Command.wallpaper "2" (CmdDuration.finite 1) []] [] false)
      [ExecResult.interrupted (Action.pause false), ExecResult.elapsed]
      = [Event.begin (Command.wallpaper "1" (CmdDuration.finite 1) []), Event.stateRunning,
         Event.statePaused, Event.recv,
         Event.begin (Command.wallpaper "2" (CmdDuration.finite 1) []), Event.stateRunning,
         Event.cleanup] := by
  constructor
  · decide
  · decide

/-- C1 amended: every path that ends an Execution calls cleanup before the
next Execution is constructed, EXCEPT the Pause with clear false path, which
returns from exec_async without cleaning up the paused Execution; in every
run whose environment contains no Pause with clear false interruption, each
Execution begun after the first is preceded by a cleanup of the previous
one. -/
theorem cleanup_before_next_begin_holds (n : Nat) (s : RState)
    (env : List ExecResult)
    (hp : ExecResult.interrupted (Action.pause false) ∉ env) :
    cleanupBeforeNextBegin (runTrace n s env) = true := by
  unfold cleanupBeforeNextBegin
  rw [runTrace_scanClean n s env hp]
  rfl

theorem cleanup_before_next_begin_holds_witness :
    cleanupBeforeNextBegin (runTrace 2
      (RState.mk 0 [Command.wallpaper "1" (CmdDuration.finite 1) [],
        Command.wallpaper "2" (CmdDuration.finite 1) []] [] false)
      [ExecResult.interrupted (Action.pause true), ExecResult.elapsed]) = true :=
  cleanup_before_next_begin_holds 2
    (RState.mk 0 [Command.wallpaper "1" (CmdDuration.finite 1) [],
      Command.wallpaper "2" (CmdDuration.finite 1) []] [] false)
    [ExecResult.interrupted (Action.pause true), ExecResult.elapsed] (by decide)

/-- C5 counterexample: the parser applied to the empty string returns
NotEnoughArguments (the take_till1 of the Wallpaper alternative fails and
its error is the one surfaced), not CommandNotFound as claimed. -/
theorem parse_empty_line_cex :
    Commands.parse "" = Except.error ParseError.notEnoughArguments
    ∧ Commands.parse "" ≠ Except.error ParseError.commandNotFound := by
  constructor
  · decide
  · decide

/-- C5 amended: a failing line is classified by the error of the last
alternative tried, the Wallpaper parser: NotEnoughArguments when a required
token is missing, which includes the empty line and a bare unrecognized
head token; InvalidArgument when a present duration token fails to convert,
also behind an unrecognized head token; CommandNotFound only as an
otherwise unreached fallback; and a property token missing an equals sign
is silently dropped rather than reported. -/
theorem parse_error_classification :
    Commands.parse "" = Except.error ParseError.notEnoughArguments
    ∧ Commands.parse "foo" = Except.error ParseError.notEnoughArguments
    ∧ Commands.parse "foo bar" = Except.error ParseError.invalidArgument
    ∧ Commands.parse "sleep" = Except.error ParseError.notEnoughArguments
    ∧ Commands.parse "sleep 5x" = Except.error ParseError.invalidArgument
    ∧ Commands.parse "1 5m k" = Except.ok (Command.wallpaper "1" (CmdDuration.finite 300) []) := by
  refine ⟨by decide, by decide, by decide, by decide, by decide, by decide⟩

/-- C4: Execution::begin for a Wallpaper command unwraps the spawn result,
so a failed spawn is a panic of the runner task (modelled as none) rather
than a surfaced error value; the Sleep kind spawns nothing and is immune. -/
theorem begin_spawn_failure_panics :
    Exec.begin (Command.wallpaper "1" (CmdDuration.finite 60) []) Exec.SpawnOutcome.err = none
    ∧ Exec.begin (Command.sleep (CmdDuration.finite 60)) Exec.SpawnOutcome.err
        = some (Exec.Execution.mk Exec.ExecType.sleep (some 60)) :=
  ⟨rfl, rfl⟩

/-- C9 counterexample: remaining() is not defined for every elapsed value:
with a configured duration of 1 and an elapsed time of 2 the Duration
subtraction inside the map overflows and the call panics (none). -/
theorem remaining_not_total_cex :
    Exec.remaining (some 1) 2 = none
    ∧ (Exec.remaining (some 1) 2).isSome = false :=
  ⟨rfl, rfl⟩

/-- C9 amended: remaining() returns None exactly when the configured
duration is Infinite; for a finite duration it returns the configured
duration minus the elapsed time, but it is only defined while the elapsed
time has not exceeded the configured duration, panicking otherwise. -/
theorem remaining_spec (d e : Nat) :
    Exec.remaining none e = some none
    ∧ (e ≤ d → Exec.remaining (some d) e = some (some (d - e)))
    ∧ (d < e → Exec.remaining (some d) e = none)
    ∧ ((Exec.remaining (some d) e).isSome ↔ e ≤ d) := by
  refine ⟨rfl, fun h => ?_, fun h => ?_, ?_⟩
  · simp [Exec.remaining, Exec.durSub, h]
  · simp [Exec.remaining, Exec.durSub, Nat.not_le.mpr h]
  · by_cases h : e ≤ d
    · simp [Exec.remaining, Exec.durSub, h]
    · simp [Exec.remaining, Exec.durSub, h]

theorem remaining_spec_witness :
    Exec.remaining (some 5) 3 = some (some 2)
    ∧ Exec.remaining none 7 = some none :=
  ⟨(remaining_spec 5 3).2.1 (by decide), (remaining_spec 5 7).1⟩

/-- A handle found in the purged registry belongs to a live runner. -/
theorem lookupKey_tryCleanup_live : ∀ (rs : Daemon.Registry) (m : String)
    (h : Daemon.RHandle),
    Daemon.lookupKey (Daemon.tryCleanup rs) m = some h → h.exited = false
  | [], m, h, hl => by simp [Daemon.tryCleanup, Daemon.lookupKey] at hl
  | (k, x) :: rest, m, h, hl => by
    by_cases hx : x.exited
    · have heq : Daemon.tryCleanup ((k, x) :: rest) = Daemon.tryCleanup rest := by
        simp [Daemon.tryCleanup, List.filter_cons, hx]
      rw [heq] at hl
      exact lookupKey_tryCleanup_live rest m h hl
    · have heq : Daemon.tryCleanup ((k, x) :: rest) = (k, x) :: Daemon.tryCleanup rest := by
        simp [Daemon.tryCleanup, List.filter_cons, hx]
      rw [heq] at hl
      by_cases hk : k = m
      · rw [show Daemon.lookupKey ((k, x) :: Daemon.tryCleanup rest) m = some x from by
          simp [Daemon.lookupKey, hk]] at hl
        cases hl
        simpa using hx
      · rw [show Daemon.lookupKey ((k, x) :: Daemon.tryCleanup rest) m
            = Daemon.lookupKey (Daemon.tryCleanup rest) m from by
          simp [Daemon.lookupKey, hk]] at hl
        exact lookupKey_tryCleanup_live rest m h hl

/-- C7: a load request for a monitor that still maps to a live handle after
the purge fails as already in use, never invokes Runner::new, and leaves
the purged registry mapping that monitor to exactly the prior live handle,
with key uniqueness preserved. -/
theorem load_busy_monitor (rs : Daemon.Registry) (monitor : String)
    (h : Daemon.RHandle) (mk : Unit → Except RunnerError Daemon.RHandle)
    (hl : Daemon.lookupKey (Daemon.tryCleanup rs) monitor = some h) :
    Daemon.loadStep rs monitor mk
        = (Daemon.tryCleanup rs, Daemon.LoadResponse.alreadyInUse monitor, false)
    ∧ Daemon.lookupKey (Daemon.loadStep rs monitor mk).1 monitor = some h
    ∧ h.exited = false
    ∧ ((rs.map Prod.fst).Nodup → ((Daemon.loadStep rs monitor mk).1.map Prod.fst).Nodup) := by
  have hload : Daemon.loadStep rs monitor mk
      = (Daemon.tryCleanup rs, Daemon.LoadResponse.alreadyInUse monitor, false) := by
    simp [Daemon.loadStep, hl]
  refine ⟨hload, ?_, lookupKey_tryCleanup_live rs monitor h hl, fun hn => ?_⟩
  · rw [hload]
    exact hl
  · rw [hload]
    exact List.Nodup.sublist
      (List.Sublist.map Prod.fst (List.filter_sublist rs)) hn

theorem load_busy_monitor_witness :
    Daemon.loadStep [("m1", Daemon.RHandle.mk 0 false)] "m1"
        (fun _ => Except.ok (Daemon.RHandle.mk 1 false))
      = (Daemon.tryCleanup [("m1", Daemon.RHandle.mk 0 false)],
          Daemon.LoadResponse.alreadyInUse "m1", false)
    ∧ Daemon.lookupKey (Daemon.loadStep [("m1", Daemon.RHandle.mk 0 false)] "m1"
        (fun _ => Except.ok (Daemon.RHandle.mk 1 false))).1 "m1"
      = some (Daemon.RHandle.mk 0 false)
    ∧ (Daemon.RHandle.mk 0 false).exited = false
    ∧ ((([("m1", Daemon.RHandle.mk 0 false)] : Daemon.Registry).map Prod.fst).Nodup →
        (((Daemon.loadStep [("m1", Daemon.RHandle.mk 0 false)] "m1"
          (fun _ => Except.ok (Daemon.RHandle.mk 1 false))).1.map Prod.fst).Nodup)) :=
  load_busy_monitor [("m1", Daemon.RHandle.mk 0 false)] "m1"
    (Daemon.RHandle.mk 0 false) (fun _ => Except.ok (Daemon.RHandle.mk 1 false)) (by decide)

/-- C8: a playlist whose lines yield zero valid Commands makes Runner::new
fail with InitFailed, and a failed construction registers nothing for the
requested monitor; conversely a single line that fails to parse (or is
blank or a comment) is skipped without affecting the remaining lines. -/
theorem empty_playlist_init_fails (lines : List String) (l : String)
    (rest : List String) (rs : Daemon.Registry) (monitor : String)
    (e : RunnerError)
    (h0 : Playlist.parseLines lines = [])
    (h1 : Playlist.lineCommand l = none)
    (h2 : Daemon.lookupKey (Daemon.tryCleanup rs) monitor = none) :
    runnerNew (some lines) = Except.error RunnerError.initFailed
    ∧ Playlist.parseLines (l :: rest) = Playlist.parseLines rest
    ∧ Daemon.lookupKey
        (Daemon.loadStep rs monitor fun _ => Except.error e).1 monitor = none := by
  refine ⟨?_, ?_, ?_⟩
  · simp [runnerNew, Playlist.parse, h0]
  · simp [Playlist.parseLines, List.filterMap_cons, h1]
  · simp [Daemon.loadStep, h2]

theorem empty_playlist_init_fails_witness :
    runnerNew (some ["# comment", "   ", "oops oops"]) = Except.error RunnerError.initFailed
    ∧ Playlist.parseLines ("garbage" :: ["end"]) = Playlist.parseLines ["end"]
    ∧ Daemon.lookupKey
        (Daemon.loadStep [] "m1" fun _ => Except.error RunnerError.initFailed).1 "m1" = none :=
  empty_playlist_init_fails ["# comment", "   ", "oops oops"] "garbage" ["end"] [] "m1"
    RunnerError.initFailed (by decide) (by decide) (by decide)

end LxWEngD
